import Mathlib

/-!
Verification of the go-cwl terminal log viewer against its specification.

Each section embeds one part of the Go source as executable Lean
definitions and proves (or refutes) the corresponding claim.
-/

namespace GoCwl

/-! ### Log-event ring buffer (DisplayLogScreen.Init)

The multiplexer task appends each received batch to the source's buffer
and then evicts from the front once the length exceeds `MaxEvents`:

    for _, evt := range u.Value.SessionResults {
        s.buffers[arn] = append(s.buffers[arn], NewLogEvent(evt))
    }
    if len(s.buffers[arn]) > MaxEvents {
        s.buffers[arn] = s.buffers[arn][len(s.buffers[arn])-MaxEvents:]
    }
-/

/-- Source constant `MaxEvents = 1000`. -/
def MaxEvents : Nat := 1000

/-- One append-and-evict step of the multiplexer task: append the batch,
then keep only the last `MaxEvents` entries if the bound is exceeded.
Event payloads are irrelevant to the buffer discipline, so the element
type is a parameter. -/
def appendEvents {α : Type} (buf batch : List α) : List α :=
  let b := buf ++ batch
  if b.length > MaxEvents then b.drop (b.length - MaxEvents) else b

/-- The buffer obtained from the empty initial buffer (`Init` sets
`s.buffers[arn] = []`) after a sequence of batch appends. -/
def runAppends {α : Type} (batches : List (List α)) : List α :=
  batches.foldl appendEvents []

theorem appendEvents_eq_rtake {α : Type} (buf batch : List α) :
    appendEvents buf batch = (buf ++ batch).rtake MaxEvents := by
  show (if (buf ++ batch).length > MaxEvents
      then (buf ++ batch).drop ((buf ++ batch).length - MaxEvents)
      else buf ++ batch) = (buf ++ batch).drop ((buf ++ batch).length - MaxEvents)
  split
  · rfl
  · next h =>
    have h0 : (buf ++ batch).length - MaxEvents = 0 := by omega
    rw [h0, List.drop_zero]

theorem rtake_append_rtake {α : Type} (n : Nat) (x y : List α) :
    (x.rtake n ++ y).rtake n = (x ++ y).rtake n := by
  rw [List.rtake_eq_reverse_take_reverse, List.rtake_eq_reverse_take_reverse,
    List.rtake_eq_reverse_take_reverse]
  rw [List.reverse_append, List.reverse_reverse, List.reverse_append]
  rw [List.take_append_eq_append_take, List.take_append_eq_append_take, List.take_take]
  rw [Nat.min_eq_left (Nat.sub_le n y.reverse.length)]

theorem length_rtake_le {α : Type} (l : List α) (n : Nat) : (l.rtake n).length ≤ n := by
  simp only [List.rtake, List.length_drop]
  omega

theorem rtake_of_length_le {α : Type} {l : List α} {n : Nat} (h : l.length ≤ n) :
    l.rtake n = l := by
  simp [List.rtake, Nat.sub_eq_zero_of_le h]

theorem foldl_appendEvents_eq {α : Type} (bs : List (List α)) :
    ∀ a : List α, a.length ≤ MaxEvents →
      bs.foldl appendEvents a = (a ++ bs.flatten).rtake MaxEvents := by
  induction bs with
  | nil =>
    intro a ha
    rw [List.foldl_nil, List.flatten_nil, List.append_nil, rtake_of_length_le ha]
  | cons b bs ih =>
    intro a _
    rw [List.foldl_cons, appendEvents_eq_rtake,
      ih ((a ++ b).rtake MaxEvents) (length_rtake_le _ _),
      rtake_append_rtake, List.flatten_cons, List.append_assoc]

theorem runAppends_eq_rtake {α : Type} (bs : List (List α)) :
    runAppends bs = bs.flatten.rtake MaxEvents := by
  unfold runAppends
  rw [foldl_appendEvents_eq bs [] (by simp [MaxEvents]), List.nil_append]

theorem flatten_map_singleton (l : List Nat) :
    (l.map fun n => [n]).flatten = l := by
  induction l with
  | nil => rfl
  | cons x xs ih => simp [ih]

/-- Claim C1: for every sequence of event-batch appends starting from the
empty buffer, the buffer never exceeds `MaxEvents = 1000` entries, and it
always equals exactly the most recently appended 1000 events of the whole
append history in their original relative order (`List.rtake`, i.e. the
final segment of the concatenated history); in particular appending the
events 1, …, 1500 one at a time leaves exactly the events 501–1500 in
order. -/
theorem c1_buffer_fifo :
    (∀ (α : Type) (bs : List (List α)),
      (runAppends bs).length ≤ MaxEvents ∧
      runAppends bs = bs.flatten.rtake MaxEvents) ∧
    runAppends ((List.range' 1 1500).map fun n => [n]) = List.range' 501 1000 := by
  constructor
  · intro α bs
    have h := runAppends_eq_rtake bs
    exact ⟨h ▸ length_rtake_le _ _, h⟩
  · rw [runAppends_eq_rtake, flatten_map_singleton]
    have h : List.range' 1 500 ++ List.range' 501 1000 = List.range' 1 1500 := by
      simpa using List.range'_append_1 1 500 1000
    rw [← h]
    simp only [List.rtake]
    have hlen : (List.range' 1 500 ++ List.range' 501 1000).length - MaxEvents =
        (List.range' 1 500).length := by simp [MaxEvents]
    rw [hlen]
    exact List.drop_left _ _

/-! ### Selection toggle (ChooseLogsScreen.HandleInput, space key)

    contains := selected has an entry with the highlighted item's ARN
    if contains { selected = DeleteFunc(selected, same-ARN) }
    else       { selected = append(selected, filtered[index]) }

Log groups are compared only by ARN here, so the chosen set is embedded
as the ordered list of selected ARNs. -/

/-- One press of the select key on a highlighted item with identifier
`arn`: remove every entry with that ARN if one is present, otherwise
append the item at the end. -/
def toggleSelect (selected : List String) (arn : String) : List String :=
  if selected.any fun a => a == arn then
    selected.filter fun a => !(a == arn)
  else
    selected ++ [arn]

theorem toggleSelect_of_not_mem {sel : List String} {arn : String} (h : arn ∉ sel) :
    toggleSelect sel arn = sel ++ [arn] := by
  have hc : (sel.any fun a => a == arn) = false := by
    rw [Bool.eq_false_iff]
    intro hc
    rw [List.any_eq_true] at hc
    obtain ⟨x, hx, he⟩ := hc
    rw [beq_iff_eq] at he
    exact h (he ▸ hx)
  unfold toggleSelect
  rw [hc]
  simp

theorem toggleSelect_of_mem {sel : List String} {arn : String} (h : arn ∈ sel) :
    toggleSelect sel arn = sel.filter fun a => !(a == arn) := by
  have hc : (sel.any fun a => a == arn) = true :=
    List.any_eq_true.mpr ⟨arn, h, by simp⟩
  unfold toggleSelect
  rw [hc]
  simp

/-- Claim C5 counterexample: toggling "a" twice in the chosen set
["a", "b"] yields ["b", "a"], not the original order ["a", "b"]. -/
theorem c5_counterexample :
    toggleSelect (toggleSelect ["a", "b"] "a") "a" ≠ ["a", "b"] := by decide

/-- Claim C5 (amended): toggling the same identifier twice restores the
chosen set exactly (including order) when the item was not previously
selected; when it was selected, the double toggle keeps the same
membership but moves the item to the end (all entries with that ARN are
removed and a single one is re-appended). -/
theorem c5_toggle_involution (sel : List String) (arn : String) :
    (arn ∉ sel → toggleSelect (toggleSelect sel arn) arn = sel) ∧
    (arn ∈ sel → toggleSelect (toggleSelect sel arn) arn =
      (sel.filter fun a => !(a == arn)) ++ [arn]) ∧
    (∀ x, x ∈ toggleSelect (toggleSelect sel arn) arn ↔ x ∈ sel) := by
  by_cases h : arn ∈ sel
  · have h1 := toggleSelect_of_mem h
    have h2 : arn ∉ sel.filter fun a => !(a == arn) := by
      simp [List.mem_filter]
    have h3 : toggleSelect (toggleSelect sel arn) arn =
        (sel.filter fun a => !(a == arn)) ++ [arn] := by
      rw [h1, toggleSelect_of_not_mem h2]
    refine ⟨fun hc => absurd h hc, fun _ => h3, fun x => ?_⟩
    rw [h3]
    simp only [List.mem_append, List.mem_filter, List.mem_singleton,
      Bool.not_eq_true', beq_eq_false_iff_ne, ne_eq]
    constructor
    · rintro (⟨hx, _⟩ | rfl)
      · exact hx
      · exact h
    · intro hx
      by_cases hxa : x = arn
      · exact Or.inr hxa
      · exact Or.inl ⟨hx, hxa⟩
  · have h1 := toggleSelect_of_not_mem h
    have h2 : arn ∈ sel ++ [arn] := by simp
    have h3 : toggleSelect (toggleSelect sel arn) arn = sel := by
      rw [h1, toggleSelect_of_mem h2]
      rw [List.filter_append]
      have hl : sel.filter (fun a => !(a == arn)) = sel :=
        List.filter_eq_self.mpr fun a ha => by
          simp only [Bool.not_eq_true', beq_eq_false_iff_ne, ne_eq]
          rintro rfl
          exact h ha
      have hr : [arn].filter (fun a => !(a == arn)) = [] := by simp
      rw [hl, hr, List.append_nil]
    exact ⟨fun _ => h3, fun hc => absurd hc h, fun x => by rw [h3]⟩

/-- Witness for C5 at a concrete chosen set. -/
theorem c5_toggle_involution_witness :
    ("a" ∈ ["a", "b"] ∧
      toggleSelect (toggleSelect ["a", "b"] "a") "a" =
        ((["a", "b"].filter fun a => !(a == "a")) ++ ["a"])) :=
  ⟨by decide, (c5_toggle_involution ["a", "b"] "a").2.1 (by decide)⟩

/-! ### App.ForceUnlock (app.go)

    func (a *App) ForceUnlock() {
        if !a.mu.TryLock() {
            a.mu.Unlock()
        }
    }

A `sync.Mutex` is embedded as its locked flag. `TryLock` reports true
and acquires the mutex when it is free; reports false when held. -/

def tryLock (locked : Bool) : Bool × Bool :=
  if locked then (false, locked) else (true, true)

def muUnlock (_ : Bool) : Bool := false

/-- `App.ForceUnlock`, returning the mutex state after the call. -/
def ForceUnlock (locked : Bool) : Bool :=
  let r := tryLock locked
  if !r.1 then muUnlock r.2 else r.2

/-- Claim C10: the code releases a held mutex, but when the mutex is
free `TryLock` succeeds (acquiring it) and the function returns without
unlocking, so the mutex is left LOCKED — the claim fails on a free
mutex. -/
theorem c10_forceUnlock_locks_free_mutex :
    ForceUnlock true = false ∧ ForceUnlock false = true := by decide

/-! ### TTY mode toggles (tty.go)

`EnableAlt`/`DisableAlt` are guarded by the `alt` flag (and a nil
check on the underlying device, embedded as `topen`). `EnableMouse`,
`DisableMouse`, `HideCursor` and `ShowCursor` keep no flag and write
their control sequence unconditionally. The second component of each
result is the list of strings written to the terminal. -/

structure TTYState where
  topen : Bool
  alt : Bool
deriving DecidableEq, Repr

def ScreenEnableAlt : String := "\x1b[?1049h"
def ScreenDisableAlt : String := "\x1b[?1049l"
def MouseEnableSeq : String := "\x1b[?1000h"
def MouseDisableSeq : String := "\x1b[?1000l"
def CursorHide : String := "\x1b[?25l"
def CursorShow : String := "\x1b[?25h"

def EnableAlt (t : TTYState) : TTYState × List String :=
  if !t.topen then (t, [])
  else if t.alt then (t, [])
  else ({ t with alt := true }, [ScreenEnableAlt])

def DisableAlt (t : TTYState) : TTYState × List String :=
  if !t.topen then (t, [])
  else if !t.alt then (t, [])
  else ({ t with alt := false }, [ScreenDisableAlt])

def EnableMouse (t : TTYState) : TTYState × List String := (t, [MouseEnableSeq])

def DisableMouse (t : TTYState) : TTYState × List String := (t, [MouseDisableSeq])

def HideCursor (t : TTYState) : TTYState × List String := (t, [CursorHide])

def ShowCursor (t : TTYState) : TTYState × List String := (t, [CursorShow])

/-- Claim C4 counterexample: a second `EnableMouse` on a device that
already enabled the mouse still writes bytes — the enable is not a
state-change-only emission. -/
theorem c4_counterexample :
    (EnableMouse (EnableMouse ⟨true, true⟩).1).2 ≠ [] := by decide

/-- Claim C4 (amended): only `EnableAlt`/`DisableAlt` are idempotent
(invoking them in the already-current state writes no bytes and leaves
the state unchanged, and they emit the control sequence exactly on a
state change); `EnableMouse`, `DisableMouse`, `HideCursor` and
`ShowCursor` keep no state flag and write their sequence on every
call. -/
theorem c4_toggle_idempotence (t : TTYState) :
    (t.alt = true → EnableAlt t = (t, [])) ∧
    (t.alt = false → DisableAlt t = (t, [])) ∧
    (t.topen = true → t.alt = false →
      EnableAlt t = ({ t with alt := true }, [ScreenEnableAlt])) ∧
    (t.topen = true → t.alt = true →
      DisableAlt t = ({ t with alt := false }, [ScreenDisableAlt])) ∧
    EnableMouse t = (t, [MouseEnableSeq]) ∧
    DisableMouse t = (t, [MouseDisableSeq]) ∧
    HideCursor t = (t, [CursorHide]) ∧
    ShowCursor t = (t, [CursorShow]) := by
  obtain ⟨o, a⟩ := t
  cases o <;> cases a <;>
    simp [EnableAlt, DisableAlt, EnableMouse, DisableMouse, HideCursor, ShowCursor]

/-- Witness for C4 at a concrete device state. -/
theorem c4_toggle_idempotence_witness :
    (TTYState.alt ⟨true, true⟩ = true ∧ EnableAlt ⟨true, true⟩ = (⟨true, true⟩, [])) :=
  ⟨rfl, (c4_toggle_idempotence ⟨true, true⟩).1 rfl⟩

/-! ### Input decoder (App.Start input loop, app.go)

The loop keeps a `ctrl` flag and a `ctrlCode` accumulator. An Escape
rune sets `ctrl` and arms a 10ms timer that clears it; while `ctrl` is
set, runes accumulate into `ctrlCode` until a letter terminates the
sequence, which is delivered via `HandleCtrl("\x1b" + ctrlCode)`.
Rune 3 (Ctrl+C) stops the loop; any other rune is delivered via
`HandleInput`. The timed semantics is embedded as an event stream where
`timeout` stands for "the 10ms timer of the pending Escape fired before
the next rune arrived". -/

inductive InEvt where
  | rune (c : Char)
  | timeout
deriving DecidableEq, Repr

inductive OutEvt where
  | key (c : Char)
  | ctrlSeq (s : List Char)
  | quit
deriving DecidableEq, Repr

structure DecSt where
  ctrl : Bool
  code : List Char
deriving DecidableEq, Repr

def decStep (st : DecSt) (e : InEvt) : DecSt × List OutEvt :=
  match e with
  | .timeout => ({ st with ctrl := false }, [])
  | .rune c =>
    if c = '\x1b' then ({ st with ctrl := true }, [])
    else if st.ctrl then
      let code := st.code ++ [c]
      if ('a' ≤ c ∧ c ≤ 'z') ∨ ('A' ≤ c ∧ c ≤ 'Z') then
        (⟨false, []⟩, [OutEvt.ctrlSeq ('\x1b' :: code)])
      else ({ st with code := code }, [])
    else if c = Char.ofNat 3 then (st, [OutEvt.quit])
    else (st, [OutEvt.key c])

/-- The decoder run on a whole event stream, collecting in order every
event delivered to the active screen. -/
def decRun (es : List InEvt) : DecSt × List OutEvt :=
  es.foldl (fun acc e =>
    let r := decStep acc.1 e
    (r.1, acc.2 ++ r.2)) (⟨false, []⟩, [])

/-- Claim C3 counterexample: a lone ESC followed by a pause exceeding
the 10ms window delivers NOTHING to the active screen — in particular
no bare-Escape key event. The pending Escape is silently discarded. -/
theorem c3_counterexample :
    (decRun [InEvt.rune '\x1b', InEvt.timeout]).2 = [] ∧
    OutEvt.key '\x1b' ∉ (decRun [InEvt.rune '\x1b', InEvt.timeout]).2 := by decide

/-- Claim C3 (amended): ESC `[` `A` with no inter-byte delay is
delivered as the single control event "\x1b[A" and never as separate
key events; a lone ESC whose 10ms timer fires is discarded — no event
at all reaches the active screen. -/
theorem c3_escape_decoding :
    (decRun [InEvt.rune '\x1b', InEvt.rune '[', InEvt.rune 'A']).2 =
      [OutEvt.ctrlSeq ['\x1b', '[', 'A']] ∧
    (decRun [InEvt.rune '\x1b', InEvt.timeout]).2 = [] := by decide

/-! ### LoadDefaultConfig (config.go)

The filesystem is embedded as a partial map from paths to successfully
opened-and-parsed configurations (`none` = open or JSON decode failed),
together with the results of `os.Getwd` and `os.UserHomeDir`. -/

structure Config where
  excludeProfiles : List String
deriving DecidableEq, Repr

def DotConfigFile : String := ".cwl.json"
def ConfigFile : String := "cwl.json"

structure FileEnv where
  getwd : Option String
  userHomeDir : Option String
  fs : String → Option Config

def filepathJoin (a b : String) : String := a ++ "/" ++ b

def LoadConfig (env : FileEnv) (path : String) : Option Config := env.fs path

/-- `LoadDefaultConfig`: try `cwd/.cwl.json`, then `home/.cwl.json`,
then `home/.config/cwl/cwl.json`; first success wins; if all three fail
return the empty configuration (`none` only when `Getwd`/`UserHomeDir`
themselves fail). -/
def LoadDefaultConfig (env : FileEnv) : Option Config :=
  match env.getwd with
  | none => none
  | some cwd =>
    match LoadConfig env (filepathJoin cwd DotConfigFile) with
    | some cfg => some cfg
    | none =>
      match env.userHomeDir with
      | none => none
      | some home =>
        match LoadConfig env (filepathJoin home DotConfigFile) with
        | some cfg => some cfg
        | none =>
          match LoadConfig env
              (filepathJoin (filepathJoin (filepathJoin home ".config") "cwl") ConfigFile) with
          | some cfg => some cfg
          | none => some ⟨[]⟩

/-- Claim C9: the three candidate files are consulted in order; the
first one that opens and parses wins regardless of the contents of the
later paths; if none of the three is readable the result is the empty
configuration (no excluded profiles) and not an error. -/
theorem c9_config_first_wins (env : FileEnv) (cwd home : String)
    (hw : env.getwd = some cwd) (hh : env.userHomeDir = some home) :
    (∀ c, env.fs (filepathJoin cwd DotConfigFile) = some c →
      LoadDefaultConfig env = some c) ∧
    (∀ c, env.fs (filepathJoin cwd DotConfigFile) = none →
      env.fs (filepathJoin home DotConfigFile) = some c →
      LoadDefaultConfig env = some c) ∧
    (∀ c, env.fs (filepathJoin cwd DotConfigFile) = none →
      env.fs (filepathJoin home DotConfigFile) = none →
      env.fs (filepathJoin (filepathJoin (filepathJoin home ".config") "cwl") ConfigFile)
        = some c →
      LoadDefaultConfig env = some c) ∧
    (env.fs (filepathJoin cwd DotConfigFile) = none →
      env.fs (filepathJoin home DotConfigFile) = none →
      env.fs (filepathJoin (filepathJoin (filepathJoin home ".config") "cwl") ConfigFile)
        = none →
      LoadDefaultConfig env = some ⟨[]⟩) := by
  refine ⟨?_, ?_, ?_, ?_⟩ <;> intros <;>
    simp_all [LoadDefaultConfig, LoadConfig]

/-- Witness for C9 on a filesystem with none of the three files. -/
theorem c9_config_first_wins_witness :
    ((FileEnv.mk (some "/w") (some "/h") fun _ => none).getwd = some "/w" ∧
      (FileEnv.mk (some "/w") (some "/h") fun _ => none).userHomeDir = some "/h") ∧
    ((FileEnv.mk (some "/w") (some "/h") fun _ => none).fs
        (filepathJoin "/w" DotConfigFile) = none →
      (FileEnv.mk (some "/w") (some "/h") fun _ => none).fs
        (filepathJoin "/h" DotConfigFile) = none →
      (FileEnv.mk (some "/w") (some "/h") fun _ => none).fs
        (filepathJoin (filepathJoin (filepathJoin "/h" ".config") "cwl") ConfigFile) = none →
      LoadDefaultConfig (FileEnv.mk (some "/w") (some "/h") fun _ => none) = some ⟨[]⟩) :=
  ⟨⟨rfl, rfl⟩,
    (c9_config_first_wins (FileEnv.mk (some "/w") (some "/h") fun _ => none)
      "/w" "/h" rfl rfl).2.2.2⟩

/-! ### DisplayLogScreen per-source session state

The per-source maps (`buffers`, `index`, `offset`, `live`, `changed`,
`view`) are embedded as one record per source. Event payloads are
irrelevant to cursor and offset management, so events are numbered with
`Nat`. -/

def viewModeStream : Nat := 0
def viewModeOpenAlt : Nat := 1
def viewModeAlt : Nat := 2
def viewModeCloseAlt : Nat := 3

structure Session where
  buf : List Nat
  index : Int
  offset : Int
  live : Bool
  view : Nat
  changed : Bool
deriving DecidableEq, Repr

/-- The per-source state recorded by `Init` once the subscription is
open: empty buffer, cursor −1, offset 0, live mode on, dirty flag set;
the view-mode map has no entry yet, which reads as `viewModeStream`. -/
def initSession : Session :=
  { buf := [], index := -1, offset := 0, live := true,
    view := viewModeStream, changed := true }

/-- One multiplexer batch delivery for this source: mark dirty, append
the batch and evict (the `appendEvents` step of `Init`). -/
def sessionAppend (s : Session) (batch : List Nat) : Session :=
  { s with changed := true, buf := appendEvents s.buf batch }

/-- `viewMode` (space key, or double click on the highlighted row):
no-op on an empty buffer; otherwise leave live mode and flip
stream→open-alt or alt→close-alt, marking the source dirty. -/
def sessionViewMode (s : Session) : Session :=
  if s.buf = [] then s
  else
    { s with
      live := false
      changed := true
      view :=
        if s.view = viewModeStream then viewModeOpenAlt
        else if s.view = viewModeAlt then viewModeCloseAlt
        else s.view }

/-- `handleViewMode`, run at the start of every effective render: no-op
on an empty buffer; otherwise finish opening (open-alt→alt) or closing
(close-alt→stream) the full-screen detail view. -/
def sessionHandleViewMode (s : Session) : Session :=
  if s.buf = [] then s
  else if s.view = viewModeOpenAlt then { s with view := viewModeAlt }
  else if s.view = viewModeCloseAlt then { s with view := viewModeStream }
  else s

/-- The body of `Render` after the dirty-flag early return and
`handleViewMode`: empty buffer renders only the title; the detail view
reads `s.buffers[arn][idx]` — embedded fallibly, `none` being the Go
runtime panic when `idx` is outside the buffer; the stream view in live
mode pins `offset` to `lastidx - (row-2)` clamped at 0 and the cursor
to `lastidx`. -/
def renderBody (row : Int) (t : Session) : Option Session :=
  if t.buf = [] then some t
  else if t.view = viewModeAlt then
    if 0 ≤ t.index ∧ t.index < (t.buf.length : Int) then some t else none
  else
    let rows : Int := row - 2
    let lastidx : Int := (t.buf.length : Int) - 1
    if t.live then
      let offset := lastidx - rows
      let offset2 := if offset < 0 then 0 else offset
      some { t with offset := offset2, index := lastidx }
    else some t

/-- `Render` restricted to this source's session state; `row` is the
terminal row count from `tty.Size()`. -/
def sessionRender (row : Int) (s : Session) : Option Session :=
  if s.changed = false then some s
  else renderBody row (sessionHandleViewMode { s with changed := false })

theorem sessionHandleViewMode_buf (s : Session) :
    (sessionHandleViewMode s).buf = s.buf := by
  unfold sessionHandleViewMode
  split
  · rfl
  · split
    · rfl
    · split <;> rfl

theorem sessionHandleViewMode_live (s : Session) :
    (sessionHandleViewMode s).live = s.live := by
  unfold sessionHandleViewMode
  split
  · rfl
  · split
    · rfl
    · split <;> rfl

theorem ite_neg_eq_max (x : Int) : (if x < 0 then 0 else x) = max 0 x := by
  rcases lt_or_le x 0 with h | h
  · rw [if_pos h, max_eq_left h.le]
  · rw [if_neg (not_lt.mpr h), max_eq_right h]

/-- Claim C2: a completed render of a live source with a non-empty
buffer that ends up in stream view leaves the cursor at
`length(buf) - 1` and the offset at `max 0 (length(buf) - 1 - (row-2))`. -/
theorem c2_live_render (s : Session) (row : Int)
    (hch : s.changed = true) (hlive : s.live = true) (hbuf : s.buf ≠ [])
    (hview : (sessionHandleViewMode { s with changed := false }).view ≠ viewModeAlt) :
    ∃ r, sessionRender row s = some r ∧
      r.index = (s.buf.length : Int) - 1 ∧
      r.offset = max 0 ((s.buf.length : Int) - 1 - (row - 2)) := by
  have hnotfalse : ¬ s.changed = false := by rw [hch]; simp
  rw [sessionRender, if_neg hnotfalse]
  have hb : (sessionHandleViewMode { s with changed := false }).buf = s.buf :=
    sessionHandleViewMode_buf _
  have hl : (sessionHandleViewMode { s with changed := false }).live = true :=
    (sessionHandleViewMode_live _).trans hlive
  rw [renderBody]
  rw [if_neg (by rw [hb]; exact hbuf), if_neg hview]
  simp only [hl, if_true, hb]
  exact ⟨_, rfl, rfl, ite_neg_eq_max _⟩

/-- Witness for C2 at a concrete live session and a 3-row terminal. -/
theorem c2_live_render_witness :
    (Session.changed ⟨[5, 6, 7], -1, 0, true, 0, true⟩ = true ∧
      Session.live ⟨[5, 6, 7], -1, 0, true, 0, true⟩ = true ∧
      Session.buf ⟨[5, 6, 7], -1, 0, true, 0, true⟩ ≠ [] ∧
      (sessionHandleViewMode { (⟨[5, 6, 7], -1, 0, true, 0, true⟩ : Session) with
        changed := false }).view ≠ viewModeAlt) ∧
    ∃ r, sessionRender 3 ⟨[5, 6, 7], -1, 0, true, 0, true⟩ = some r ∧
      r.index = ((Session.buf ⟨[5, 6, 7], -1, 0, true, 0, true⟩).length : Int) - 1 ∧
      r.offset = max 0
        (((Session.buf ⟨[5, 6, 7], -1, 0, true, 0, true⟩).length : Int) - 1 - (3 - 2)) :=
  ⟨⟨rfl, rfl, by decide, by decide⟩,
    c2_live_render ⟨[5, 6, 7], -1, 0, true, 0, true⟩ 3 rfl rfl (by decide) (by decide)⟩

/-- Claim C6: a state reachable from `Init` through the modeled
operations — one event batch arrives, then the operator presses the
detail-view toggle before any render has run — leaves the cursor at −1
with a non-empty buffer and the detail view opening; the next render
then evaluates `s.buffers[arn][-1]`, an out-of-range index (a Go
runtime panic, embedded as `none`). -/
theorem c6_detail_view_invalid_index :
    (sessionViewMode (sessionAppend initSession [7])).index = -1 ∧
    (sessionViewMode (sessionAppend initSession [7])).buf = [7] ∧
    sessionRender 24 (sessionViewMode (sessionAppend initSession [7])) = none := by
  decide

/-! ### LogEvent.Lines (config.go)

    for _, c := range e.msg {
        if c == '\n' { line += "\n"; lines = append(lines, line); line = "" }
        else if unicode.IsPrint(c) {
            line += string(c)
            if len(line) >= col { lines = append(lines, line); line = "" }
        }
    }
    if line != "" { lines = append(lines, line) }

Strings are embedded as rune lists; `len` is the UTF-8 byte length of
the accumulated string; `unicode.IsPrint` is abstracted as a parameter
(the theorems hold for every printability predicate). -/

/-- Number of bytes in the UTF-8 encoding of a rune, as Go's `len`
counts the accumulated line. -/
def utf8Width (c : Char) : Nat :=
  if c.val < 0x80 then 1
  else if c.val < 0x800 then 2
  else if c.val < 0x10000 then 3
  else 4

def byteLen (l : List Char) : Nat := (l.map utf8Width).sum

/-- One iteration of the wrap loop; the state is (finished lines, line
under construction). -/
def linesStep (isPrint : Char → Bool) (col : Nat)
    (st : List (List Char) × List Char) (c : Char) : List (List Char) × List Char :=
  if c = '\n' then (st.1 ++ [st.2 ++ ['\n']], [])
  else if isPrint c then
    if col ≤ byteLen (st.2 ++ [c]) then (st.1 ++ [st.2 ++ [c]], [])
    else (st.1, st.2 ++ [c])
  else st

/-- `LogEvent.Lines`: wrap `msg` at byte width `col`, keeping each
newline with the line it terminates and dropping non-printable runes; a
non-empty final partial line is flushed. -/
def Lines (isPrint : Char → Bool) (msg : List Char) (col : Nat) : List (List Char) :=
  if (msg.foldl (linesStep isPrint col) ([], [])).2 = [] then
    (msg.foldl (linesStep isPrint col) ([], [])).1
  else
    (msg.foldl (linesStep isPrint col) ([], [])).1 ++
      [(msg.foldl (linesStep isPrint col) ([], [])).2]

/-- The runes of the message that the wrap loop does not discard. -/
def keptChars (isPrint : Char → Bool) (msg : List Char) : List Char :=
  msg.filter fun c => (c == '\n') || isPrint c

theorem foldl_linesStep_flatten (P : Char → Bool) (col : Nat) :
    ∀ (msg : List Char) (acc : List (List Char)) (line : List Char),
      (msg.foldl (linesStep P col) (acc, line)).1.flatten ++
        (msg.foldl (linesStep P col) (acc, line)).2 =
      acc.flatten ++ line ++ keptChars P msg := by
  intro msg
  induction msg with
  | nil =>
    intro acc line
    simp [keptChars]
  | cons c cs ih =>
    intro acc line
    rw [List.foldl_cons]
    have hk : keptChars P (c :: cs) =
        if ((c == '\n') || P c) = true then c :: keptChars P cs else keptChars P cs := by
      simp only [keptChars, List.filter_cons]
    by_cases h1 : c = '\n'
    · have hstep : linesStep P col (acc, line) c = (acc ++ [line ++ ['\n']], []) := by
        unfold linesStep
        rw [if_pos h1]
      rw [hstep, ih, hk, if_pos (by simp [h1]), h1]
      simp [List.flatten_append, List.append_assoc]
    · by_cases h2 : P c = true
      · have hkc : keptChars P (c :: cs) = c :: keptChars P cs := by
          rw [hk, if_pos (by simp [h2])]
        by_cases h3 : col ≤ byteLen (line ++ [c])
        · have hstep : linesStep P col (acc, line) c = (acc ++ [line ++ [c]], []) := by
            unfold linesStep
            rw [if_neg h1, h2, if_pos h3]
            simp
          rw [hstep, ih, hkc]
          simp [List.flatten_append, List.append_assoc]
        · have hstep : linesStep P col (acc, line) c = (acc, line ++ [c]) := by
            unfold linesStep
            rw [if_neg h1, h2, if_neg h3]
            simp
          rw [hstep, ih, hkc]
          simp [List.append_assoc]
      · have hkc : keptChars P (c :: cs) = keptChars P cs := by
          rw [hk, if_neg (by simp [h1, h2])]
        have hstep : linesStep P col (acc, line) c = (acc, line) := by
          unfold linesStep
          rw [if_neg h1]
          simp only [Bool.not_eq_true] at h2
          rw [h2]
          simp
        rw [hstep, ih, hkc]

/-- Joining the wrapped lines with the empty separator yields exactly
the kept runes of the message. -/
theorem flatten_Lines (P : Char → Bool) (msg : List Char) (col : Nat) :
    (Lines P msg col).flatten = keptChars P msg := by
  have h := foldl_linesStep_flatten P col msg [] []
  simp only [List.flatten_nil, List.nil_append] at h
  unfold Lines
  split
  · next h2 => rw [← h, h2, List.append_nil]
  · next h2 => rw [← h, List.flatten_append, List.flatten_cons, List.flatten_nil,
      List.append_nil]

theorem foldl_linesStep_kept (P : Char → Bool) (col : Nat) :
    ∀ (msg : List Char) (st : List (List Char) × List Char),
      (keptChars P msg).foldl (linesStep P col) st = msg.foldl (linesStep P col) st := by
  intro msg
  induction msg with
  | nil => intro st; rfl
  | cons c cs ih =>
    intro st
    have hk : keptChars P (c :: cs) =
        if ((c == '\n') || P c) = true then c :: keptChars P cs else keptChars P cs := by
      simp only [keptChars, List.filter_cons]
    by_cases h : ((c == '\n') || P c) = true
    · rw [hk, if_pos h, List.foldl_cons, List.foldl_cons]
      exact ih _
    · have h1 : ¬ c = '\n' := by
        intro hc
        exact h (by simp [hc])
      have h2 : P c = false := by
        cases hP : P c
        · rfl
        · exact absurd (by simp [hP]) h
      have hstep : linesStep P col st c = st := by
        unfold linesStep
        rw [if_neg h1, h2]
        simp
      rw [hk, if_neg h, List.foldl_cons, hstep]
      exact ih st

theorem Lines_kept (P : Char → Bool) (msg : List Char) (col : Nat) :
    Lines P (keptChars P msg) col = Lines P msg col := by
  unfold Lines
  rw [foldl_linesStep_kept]

/-- Claim C7: the line-wrap is idempotent on width — wrapping a
message, joining the lines back into one text, and wrapping again at
the same width reproduces the same list of lines, for every
printability predicate and every positive width. -/
theorem c7_lines_idempotent (P : Char → Bool) (msg : List Char) (col : Nat)
    (_hcol : 0 < col) :
    Lines P (Lines P msg col).flatten col = Lines P msg col := by
  rw [flatten_Lines, Lines_kept]

/-- Witness for C7 on a concrete message and width. -/
theorem c7_lines_idempotent_witness :
    0 < 2 ∧
      Lines (fun c => c.isAlpha) (Lines (fun c => c.isAlpha)
        ['a', 'b', 'c', '\n', 'd', '\t', 'e'] 2).flatten 2 =
      Lines (fun c => c.isAlpha) ['a', 'b', 'c', '\n', 'd', '\t', 'e'] 2 :=
  ⟨by decide, c7_lines_idempotent (fun c => c.isAlpha)
    ['a', 'b', 'c', '\n', 'd', '\t', 'e'] 2 (by decide)⟩

/-! ### GetLogGroups (config.go)

Each credential profile contributes the log groups its pagination loop
delivered before finishing (partial results are kept when a page
request fails; the error is collected non-fatally). Discovered groups
are skipped when their ARN was already seen, then sorted by
(account id, name). The error branch is taken exactly when the
collected list is empty. -/

structure LogGroup where
  arn : String
  name : String
deriving DecidableEq, Repr

/-- `strings.Split` on a single separator rune, over the rune list of
the string (structural, so that concrete instances evaluate). -/
def splitOnChar (sep : Char) (l : List Char) : List (List Char) :=
  l.foldr
    (fun c acc =>
      if c = sep then [] :: acc else (c :: acc.headD []) :: acc.tail)
    [[]]

/-- `AccountID`: field 4 of the colon-separated ARN. -/
def LogGroup.AccountID (lg : LogGroup) : String :=
  String.mk ((splitOnChar ':' lg.arn.toList).getD 4 [])

/-- Outcome of one profile's `DescribeLogGroups` loop: the groups it
delivered in order, and whether it ended with an error. -/
structure FetchResult where
  groups : List LogGroup
  failed : Bool

/-- Record a discovered group unless its ARN is already in the seen
set; the state is (accumulated groups, seen ARNs). -/
def dedupStep (st : List LogGroup × List String) (g : LogGroup) :
    List LogGroup × List String :=
  if g.arn ∈ st.2 then st else (st.1 ++ [g], st.2 ++ [g.arn])

/-- All groups delivered by all profiles, first occurrence per ARN. -/
def collectGroups (rs : List FetchResult) : List LogGroup :=
  (rs.foldl (fun st r => r.groups.foldl dedupStep st) ([], [])).1

/-- Go's lexicographic string `<`, over the rune lists of the two
strings (UTF-8 byte order and rune order agree). Computed as the Go
comparison does, rune by rune. -/
def ltStr : List Char → List Char → Bool
  | [], [] => false
  | [], _ :: _ => true
  | _ :: _, [] => false
  | x :: xs, y :: ys =>
    if x < y then true else if y < x then false else ltStr xs ys

theorem ltStr_trans : ∀ a b c : List Char,
    ltStr a b = true → ltStr b c = true → ltStr a c = true := by
  intro a
  induction a with
  | nil =>
    intro b c hab hbc
    cases b with
    | nil => cases hab
    | cons y ys =>
      cases c with
      | nil => cases hbc
      | cons z zs => rfl
  | cons x xs ih =>
    intro b c hab hbc
    cases b with
    | nil => cases hab
    | cons y ys =>
      cases c with
      | nil => cases hbc
      | cons z zs =>
        simp only [ltStr] at hab hbc ⊢
        rcases lt_trichotomy x y with hxy | hxy | hxy
        · rcases lt_trichotomy y z with hyz | hyz | hyz
          · rw [if_pos (hxy.trans hyz)]
          · subst hyz
            rw [if_pos hxy]
          · rw [if_neg (lt_asymm hyz), if_pos hyz] at hbc
            cases hbc
        · subst hxy
          rw [if_neg (lt_irrefl x), if_neg (lt_irrefl x)] at hab
          rcases lt_trichotomy x z with hxz | hxz | hxz
          · rw [if_pos hxz]
          · subst hxz
            rw [if_neg (lt_irrefl x), if_neg (lt_irrefl x)] at hbc ⊢
            exact ih ys zs hab hbc
          · rw [if_neg (lt_asymm hxz), if_pos hxz] at hbc
            cases hbc
        · rw [if_neg (lt_asymm hxy), if_pos hxy] at hab
          cases hab

theorem ltStr_connex : ∀ a b : List Char,
    ltStr a b = false → ltStr b a = false → a = b := by
  intro a
  induction a with
  | nil =>
    intro b hab _
    cases b with
    | nil => rfl
    | cons y ys => cases hab
  | cons x xs ih =>
    intro b hab hba
    cases b with
    | nil => cases hba
    | cons y ys =>
      simp only [ltStr] at hab hba
      rcases lt_trichotomy x y with hxy | hxy | hxy
      · rw [if_pos hxy] at hab
        cases hab
      · subst hxy
        rw [if_neg (lt_irrefl x), if_neg (lt_irrefl x)] at hab hba
        rw [ih ys hab hba]
      · rw [if_pos hxy] at hba
        cases hba

theorem ltStr_asymm : ∀ a b : List Char,
    ltStr a b = true → ltStr b a = false := by
  intro a
  induction a with
  | nil =>
    intro b hab
    cases b with
    | nil => cases hab
    | cons y ys => rfl
  | cons x xs ih =>
    intro b hab
    cases b with
    | nil => cases hab
    | cons y ys =>
      simp only [ltStr] at hab ⊢
      rcases lt_trichotomy x y with hxy | hxy | hxy
      · rw [if_neg (lt_asymm hxy), if_pos hxy]
      · subst hxy
        rw [if_neg (lt_irrefl x), if_neg (lt_irrefl x)] at hab ⊢
        exact ih ys hab
      · rw [if_neg (lt_asymm hxy), if_pos hxy] at hab
        cases hab

/-- `ltStr b a = false` (the reflexive closure of the Go `<`) is
transitive. -/
theorem ltStr_le_trans {a b c : List Char}
    (h1 : ltStr b a = false) (h2 : ltStr c b = false) : ltStr c a = false := by
  cases hca : ltStr c a with
  | false => rfl
  | true =>
    cases hbc : ltStr b c with
    | true =>
      have := ltStr_trans b c a hbc hca
      rw [this] at h1
      cases h1
    | false =>
      have hbceq : b = c := ltStr_connex b c hbc h2
      rw [← hbceq] at hca
      rw [hca] at h1
      cases h1

/-- The Go comparator `less` (account id, then log-group name) closed
reflexively: the order with respect to which `sort.Slice` sorts. -/
def lgLE (a b : LogGroup) : Prop :=
  ltStr a.AccountID.data b.AccountID.data = true ∨
    (a.AccountID = b.AccountID ∧ ltStr b.name.data a.name.data = false)

instance : DecidableRel lgLE := fun a b => by
  unfold lgLE
  infer_instance

theorem string_data_ext {s₁ s₂ : String} (h : s₁.data = s₂.data) : s₁ = s₂ :=
  congrArg String.mk h

instance : IsTotal LogGroup lgLE where
  total a b := by
    unfold lgLE
    cases hab : ltStr a.AccountID.data b.AccountID.data with
    | true => exact Or.inl (Or.inl rfl)
    | false =>
      cases hba : ltStr b.AccountID.data a.AccountID.data with
      | true => exact Or.inr (Or.inl rfl)
      | false =>
        have heq : a.AccountID = b.AccountID :=
          string_data_ext (ltStr_connex _ _ hab hba)
        cases hn : ltStr b.name.data a.name.data with
        | false => exact Or.inl (Or.inr ⟨heq, rfl⟩)
        | true => exact Or.inr (Or.inr ⟨heq.symm, ltStr_asymm _ _ hn⟩)

instance : IsTrans LogGroup lgLE where
  trans a b c hab hbc := by
    unfold lgLE at hab hbc ⊢
    rcases hab with h1 | ⟨e1, n1⟩ <;> rcases hbc with h2 | ⟨e2, n2⟩
    · exact Or.inl (ltStr_trans _ _ _ h1 h2)
    · exact Or.inl (e2 ▸ h1)
    · exact Or.inl (e1 ▸ h2)
    · exact Or.inr ⟨e1.trans e2, ltStr_le_trans n1 n2⟩

/-- `GetLogGroups` on the per-profile outcomes: collect and
deduplicate, fail exactly when nothing was collected (joining the
profile errors if any, else a fresh error), otherwise sort. -/
def GetLogGroups (rs : List FetchResult) : Except String (List LogGroup) :=
  if collectGroups rs = [] then
    if 0 < (rs.filter fun r => r.failed).length then
      Except.error "joined profile errors"
    else Except.error "no log groups found"
  else Except.ok (List.insertionSort lgLE (collectGroups rs))

theorem collectGroups_eq_flatten (rs : List FetchResult) :
    collectGroups rs =
      ((rs.map fun r => r.groups).flatten.foldl dedupStep ([], [])).1 := by
  unfold collectGroups
  rw [List.foldl_flatten, List.foldl_map]

theorem dedup_foldl_spec :
    ∀ (l : List LogGroup) (acc : List LogGroup) (seen : List String),
      seen = acc.map (fun g => g.arn) →
      ((l.foldl dedupStep (acc, seen)).2 =
          (l.foldl dedupStep (acc, seen)).1.map (fun g => g.arn) ∧
        (∀ a, a ∈ (l.foldl dedupStep (acc, seen)).2 ↔
          a ∈ seen ∨ a ∈ l.map fun g => g.arn) ∧
        (seen.Nodup → (l.foldl dedupStep (acc, seen)).2.Nodup)) := by
  intro l
  induction l with
  | nil =>
    intro acc seen hseen
    refine ⟨hseen, fun a => ?_, fun h => h⟩
    simp
  | cons g l ih =>
    intro acc seen hseen
    rw [List.foldl_cons]
    by_cases hmem : g.arn ∈ seen
    · have hstep : dedupStep (acc, seen) g = (acc, seen) := by
        unfold dedupStep
        rw [if_pos hmem]
      rw [hstep]
      obtain ⟨ha, hb, hc⟩ := ih acc seen hseen
      refine ⟨ha, fun a => ?_, hc⟩
      rw [hb a]
      simp only [List.map_cons, List.mem_cons]
      constructor
      · rintro (h | h)
        · exact Or.inl h
        · exact Or.inr (Or.inr h)
      · rintro (h | hr | h)
        · exact Or.inl h
        · exact Or.inl (hr ▸ hmem)
        · exact Or.inr h
    · have hstep : dedupStep (acc, seen) g = (acc ++ [g], seen ++ [g.arn]) := by
        unfold dedupStep
        rw [if_neg hmem]
      rw [hstep]
      have hseen2 : seen ++ [g.arn] = (acc ++ [g]).map fun g => g.arn := by
        rw [List.map_append, hseen]
        rfl
      obtain ⟨ha, hb, hc⟩ := ih (acc ++ [g]) (seen ++ [g.arn]) hseen2
      refine ⟨ha, fun a => ?_, fun hnd => ?_⟩
      · rw [hb a]
        simp [or_assoc]
      · refine hc ?_
        rw [List.nodup_append]
        exact ⟨hnd, List.nodup_singleton _, by
          intro a hha hsing
          rw [List.mem_singleton] at hsing
          exact hmem (hsing ▸ hha)⟩

theorem collectGroups_arn_spec (rs : List FetchResult) :
    ((collectGroups rs).map fun g => g.arn).Nodup ∧
      (∀ a, (a ∈ (collectGroups rs).map fun g => g.arn) ↔
        a ∈ (rs.map fun r => r.groups).flatten.map fun g => g.arn) := by
  rw [collectGroups_eq_flatten]
  obtain ⟨ha, hb, hc⟩ :=
    dedup_foldl_spec ((rs.map fun r => r.groups).flatten) [] [] (by simp)
  constructor
  · rw [← ha]
    exact hc List.nodup_nil
  · intro a
    rw [← ha, hb a]
    simp

theorem collectGroups_eq_nil_iff (rs : List FetchResult) :
    collectGroups rs = [] ↔ (rs.map fun r => r.groups).flatten = [] := by
  constructor
  · intro h
    by_contra hne
    obtain ⟨g, hg⟩ := List.exists_mem_of_ne_nil _ hne
    have : g.arn ∈ (rs.map fun r => r.groups).flatten.map fun g => g.arn :=
      List.mem_map_of_mem _ hg
    rw [← (collectGroups_arn_spec rs).2 g.arn, h] at this
    simp at this
  · intro h
    rw [collectGroups_eq_flatten, h]
    rfl

/-- Claim C8: `GetLogGroups` fails exactly when no log group was
delivered by any profile (so per-profile errors are non-fatal whenever
at least one group was found); on success the output is sorted by
(account id, then name), holds no two entries with the same ARN, and
holds exactly the ARNs delivered by the profiles. -/
theorem c8_getLogGroups (rs : List FetchResult) :
    ((∃ e, GetLogGroups rs = Except.error e) ↔
      (rs.map fun r => r.groups).flatten = []) ∧
    (∀ out, GetLogGroups rs = Except.ok out →
      List.Sorted lgLE out ∧
      (out.map fun g => g.arn).Nodup ∧
      (∀ a, (a ∈ out.map fun g => g.arn) ↔
        a ∈ (rs.map fun r => r.groups).flatten.map fun g => g.arn)) := by
  unfold GetLogGroups
  by_cases hnil : collectGroups rs = []
  · rw [if_pos hnil]
    constructor
    · rw [← collectGroups_eq_nil_iff rs]
      constructor
      · intro _
        exact hnil
      · intro _
        split
        · exact ⟨_, rfl⟩
        · exact ⟨_, rfl⟩
    · intro out hout
      split at hout <;> cases hout
  · rw [if_neg hnil]
    constructor
    · constructor
      · rintro ⟨e, he⟩
        cases he
      · intro h
        exact absurd ((collectGroups_eq_nil_iff rs).mpr h) hnil
    · intro out hout
      injection hout with hout2
      subst hout2
      have hperm : List.Perm (List.insertionSort lgLE (collectGroups rs))
          (collectGroups rs) :=
        List.perm_insertionSort lgLE (collectGroups rs)
      obtain ⟨hnd, hmem⟩ := collectGroups_arn_spec rs
      refine ⟨List.sorted_insertionSort lgLE (collectGroups rs), ?_, ?_⟩
      · exact ((hperm.map fun g => g.arn).nodup_iff).mpr hnd
      · intro a
        rw [(hperm.map fun g => g.arn).mem_iff, hmem a]

deriving instance DecidableEq for Except

/-- Witness for C8: two profiles, an overlapping ARN, one profile
error; the result is sorted, deduplicated and non-fatal. -/
theorem c8_getLogGroups_witness :
    (GetLogGroups
        [⟨[⟨"arn:aws:logs:r:2:b", "b"⟩, ⟨"arn:aws:logs:r:1:a", "a"⟩], false⟩,
         ⟨[⟨"arn:aws:logs:r:2:b", "b"⟩], true⟩] =
      Except.ok [⟨"arn:aws:logs:r:1:a", "a"⟩, ⟨"arn:aws:logs:r:2:b", "b"⟩]) ∧
    (List.Sorted lgLE [⟨"arn:aws:logs:r:1:a", "a"⟩, ⟨"arn:aws:logs:r:2:b", "b"⟩] ∧
      (([⟨"arn:aws:logs:r:1:a", "a"⟩, ⟨"arn:aws:logs:r:2:b", "b"⟩] :
          List LogGroup).map fun g => g.arn).Nodup ∧
      (∀ a, (a ∈ ([⟨"arn:aws:logs:r:1:a", "a"⟩, ⟨"arn:aws:logs:r:2:b", "b"⟩] :
          List LogGroup).map fun g => g.arn) ↔
        a ∈ (([⟨[⟨"arn:aws:logs:r:2:b", "b"⟩, ⟨"arn:aws:logs:r:1:a", "a"⟩], false⟩,
               ⟨[⟨"arn:aws:logs:r:2:b", "b"⟩], true⟩] :
            List FetchResult).map fun r => r.groups).flatten.map fun g => g.arn)) :=
  ⟨by decide,
    (c8_getLogGroups
      [⟨[⟨"arn:aws:logs:r:2:b", "b"⟩, ⟨"arn:aws:logs:r:1:a", "a"⟩], false⟩,
       ⟨[⟨"arn:aws:logs:r:2:b", "b"⟩], true⟩]).2
      [⟨"arn:aws:logs:r:1:a", "a"⟩, ⟨"arn:aws:logs:r:2:b", "b"⟩] (by decide)⟩

end GoCwl
